import Mathlib

/-!
Verification development for the fab-errors library: a shallow embedding of
the error-chain utilities (`hasErrorInChain`, `checkErrorChain`), the
`FabError` class (construction, context merging and freezing, `toJSON`
serialization) and the message formatter (`formatMessage`), together with
theorems settling the specification claims.
-/

/-- Behaviour of a JS object's `toString` slot, as observed by the formatter:
either the inherited default `Object.prototype.toString`, a custom override
returning a fixed string, or a custom override that throws when invoked. -/
inductive ToStr where
  | std : ToStr
  | custom : String → ToStr
  | throwing : ToStr
deriving DecidableEq

/-- Model of the JavaScript values the library manipulates.
`objV frozen toStr fields` is a plain object (with its `Object.freeze` state
and its `toString` behaviour); `errV name message code stack types cause` is a
host `Error` instance (`types` lists the class names of its prototype chain,
most derived first, so `instanceof C` is membership of `C` in `types`);
`fabV` is a `FabError` instance carrying the fields the class stores:
name, message, code, context, docs, the spec's code / messageTemplate /
defaultContext / docs, stack and cause.  `funcV src` is a function value
(its `String()` rendering). -/
inductive JSValue where
  | undefV : JSValue
  | nullV : JSValue
  | boolV : Bool → JSValue
  | numV : Int → JSValue
  | strV : String → JSValue
  | funcV : String → JSValue
  | objV : Bool → ToStr → List (String × JSValue) → JSValue
  | errV : String → JSValue → JSValue → JSValue → List String → JSValue → JSValue
  | fabV : String → String → String → JSValue → Option String → String → JSValue →
      Option (List (String × JSValue)) → Option String → JSValue → JSValue → JSValue

/-- The character `{` (written by code point to keep braces out of literals). -/
def lbrace : Char := Char.ofNat 123

/-- The character `}`. -/
def rbrace : Char := Char.ofNat 125

/-- JavaScript truthiness. -/
def truthy : JSValue → Bool
  | .undefV => false
  | .nullV => false
  | .boolV b => b
  | .numV n => n != 0
  | .strV s => s != ""
  | .funcV _ => true
  | .objV _ _ _ => true
  | .errV _ _ _ _ _ _ => true
  | .fabV _ _ _ _ _ _ _ _ _ _ _ => true

/-- `v instanceof Error`: true exactly for host `Error` instances, which in this
model are the `errV` and `fabV` constructors (`FabError extends Error`). -/
def isErrorInstance : JSValue → Bool
  | .errV _ _ _ _ _ _ => true
  | .fabV _ _ _ _ _ _ _ _ _ _ _ => true
  | _ => false

/-- `v instanceof C` for a class `C` identified by its name: membership of the
class in the value's prototype-chain class list.  A `FabError` instance is an
instance of `FabError` and of `Error`.  Primitives and plain objects are not
instances of any error class. -/
def instanceOfClass : JSValue → String → Bool
  | .errV _ _ _ _ types _, c => types.contains c
  | .fabV _ _ _ _ _ _ _ _ _ _ _, c => c == "FabError" || c == "Error"
  | _, _ => false

/-- Property lookup in a plain object's field list (`obj[k]`); a missing key
reads as `undefined`. -/
def lookupKey (fields : List (String × JSValue)) (k : String) : JSValue :=
  match fields.find? (fun p => p.1 == k) with
  | some p => p.2
  | none => .undefV

/-- Whether a field list carries the key `k`. -/
def containsKey (fields : List (String × JSValue)) (k : String) : Bool :=
  fields.any (fun p => p.1 == k)

/-- Property assignment on a field list: replace the value at an existing key
(in place), otherwise append the new key at the end — JS property-creation
order. -/
def setKey (fields : List (String × JSValue)) (k : String) (v : JSValue) :
    List (String × JSValue) :=
  if containsKey fields k then
    fields.map (fun p => if p.1 == k then (k, v) else p)
  else
    fields ++ [(k, v)]

/-- Object spread `{...a, ...b}`: assign `b`'s fields, in order, over a copy
of `a`. -/
def spreadMerge (a b : List (String × JSValue)) : List (String × JSValue) :=
  b.foldl (fun acc p => setKey acc p.1 p.2) a

/-- The field list of a plain object (`[]` on every other value). -/
def objFields : JSValue → List (String × JSValue)
  | .objV _ _ fields => fields
  | _ => []

/-- `obj[k] = v`: on a frozen object the assignment is rejected and the object
is unchanged; on an unfrozen object it performs `setKey`.  Assignments to
non-objects change nothing observable. -/
def setProp (v : JSValue) (k : String) (w : JSValue) : JSValue :=
  match v with
  | .objV frozen ts fields =>
      if frozen then .objV frozen ts fields else .objV frozen ts (setKey fields k w)
  | other => other

/-- `delete obj[k]`: rejected on a frozen object, removes the key otherwise. -/
def deleteProp (v : JSValue) (k : String) : JSValue :=
  match v with
  | .objV frozen ts fields =>
      if frozen then .objV frozen ts fields else .objV frozen ts (fields.filter (fun p => p.1 != k))
  | other => other

/-- Mutation through a path of keys (`obj.k1.k2 = w`): reading intermediate
properties is always allowed, even on a frozen object; only the final
assignment is subject to the owning object's frozen flag.  This models that
`Object.freeze` is shallow: freezing an object does not freeze the objects its
fields point to. -/
def setPropPath (v : JSValue) (path : List String) (w : JSValue) : JSValue :=
  match v, path with
  | v, [] => v
  | .objV frozen ts fields, [k] =>
      if frozen then .objV frozen ts fields else .objV frozen ts (setKey fields k w)
  | .objV frozen ts fields, k :: rest =>
      .objV frozen ts (fields.map (fun p => if p.1 == k then (k, setPropPath p.2 rest w) else p))
  | other, _ => other

/-- `String(v)` for the values that reach it in the embedded code paths
(primitives; objects are intercepted before `String()` everywhere in this
development). -/
def jsString : JSValue → String
  | .undefV => "undefined"
  | .nullV => "null"
  | .boolV b => cond b "true" "false"
  | .numV n => toString n
  | .strV s => s
  | .funcV src => src
  | .objV _ _ _ => "[object Object]"
  | .errV _ _ _ _ _ _ => ""
  | .fabV _ _ _ _ _ _ _ _ _ _ _ => ""

/-- `Error.prototype.toString`: `name`, `name: message`, or just the message
when the name is empty. -/
def errorToString (name : String) (message : JSValue) : String :=
  let msg := match message with
    | .strV s => s
    | .undefV => ""
    | m => jsString m
  if msg == "" then name else if name == "" then msg else name ++ ": " ++ msg

/-- The observable `toString` of a value as used by the formatter's object
branch: `none` when the value only has the default `Object.prototype.toString`,
`some none` when its custom `toString` throws, `some (some s)` when a custom
`toString` returns `s`.  `Error` values inherit `Error.prototype.toString`,
which differs from the default and never throws. -/
def customToString : JSValue → Option (Option String)
  | .objV _ .std _ => none
  | .objV _ (.custom s) _ => some (some s)
  | .objV _ .throwing _ => some none
  | .errV name message _ _ _ _ => some (some (errorToString name message))
  | .fabV name message _ _ _ _ _ _ _ _ _ => some (some (errorToString name (.strV message)))
  | _ => none

/-- Whether `needle` occurs as a contiguous run inside `hay`. -/
def listContains (needle hay : List Char) : Bool :=
  needle.isPrefixOf hay ||
    match hay with
    | [] => false
    | _ :: t => listContains needle t

/-- JS `hay.includes(needle)`. -/
def jsIncludes (hay needle : String) : Bool :=
  listContains needle.toList hay.toList

/-- A `\w` regex character: ASCII letter, digit or underscore. -/
def isWordChar (c : Char) : Bool :=
  (Char.isAlphanum c) || c == Char.ofNat 95

/-- The per-placeholder replacement of `formatMessage` (the callback passed to
`template.replace`): given the context and the captured identifier, produce the
replacement text, which is the untouched placeholder text when the value is
missing, `null`/`undefined`, an object without a usable custom `toString`, an
object whose custom `toString` throws, or of any other non-primitive type. -/
def formatValue (context : List (String × JSValue)) (key : String) : String :=
  let matchText := String.mk (lbrace :: (key.toList ++ [rbrace]))
  match lookupKey context key with
  | .undefV => matchText
  | .nullV => matchText
  | .strV s => s
  | .numV n => toString n
  | .boolV b => cond b "true" "false"
  | .funcV _ => matchText
  | v =>
      match customToString v with
      | some (some s) => s
      | some none => matchText
      | none => matchText

/-- `template.replace` with the pattern `{(\w+)}` and global flag: scan left to
right; at a `{`, a maximal nonempty run of word characters closed by `}` is a
match and is replaced by `f` applied to the captured run, scanning resuming
after the `}`; otherwise the character is copied and scanning resumes at the
next position. -/
def replacePlaceholders (f : String → String) (l : List Char) : List Char :=
  match l with
  | [] => []
  | c :: rest =>
      let run := rest.takeWhile isWordChar
      if c = lbrace && !run.isEmpty && (rest.drop run.length).take 1 == [rbrace] then
        (f (String.mk run)).toList ++ replacePlaceholders f (rest.drop (run.length + 1))
      else
        c :: replacePlaceholders f rest
termination_by l.length
decreasing_by
  · simp only [List.length_cons, List.length_drop]
    omega
  · simp

/-- `formatMessage (template, context)` from `src/utils.ts`: empty string for a
non-string template, otherwise the placeholder replacement above. -/
def formatMessage (template : JSValue) (context : List (String × JSValue)) : String :=
  match template with
  | .strV s => String.mk (replacePlaceholders (formatValue context) s.toList)
  | _ => ""

/-- Modelled from the spec: the reference per-placeholder policy of claim C5,
stated in the claim's order — a string/number/boolean context value is
stringified directly; a lookup miss or a strictly `null`/`undefined` value
leaves the placeholder verbatim; an object with a custom stringification is
replaced by invoking it, staying verbatim if the invocation throws or if the
object only has the default stringification; any other type stays verbatim. -/
def formatValueSpec (context : List (String × JSValue)) (key : String) : String :=
  let placeholder := String.mk (lbrace :: (key.toList ++ [rbrace]))
  match lookupKey context key with
  | .strV s => s
  | .numV n => toString n
  | .boolV b => cond b "true" "false"
  | .undefV => placeholder
  | .nullV => placeholder
  | .objV fr ts fields =>
      match customToString (.objV fr ts fields) with
      | some (some s) => s
      | _ => placeholder
  | .errV n m c s t cu =>
      match customToString (.errV n m c s t cu) with
      | some (some s) => s
      | _ => placeholder
  | .fabV a b c d e f g h i j k =>
      match customToString (.fabV a b c d e f g h i j k) with
      | some (some s) => s
      | _ => placeholder
  | .funcV _ => placeholder

/-- Modelled from the spec: the reference formatter of claim C5 — empty string
for a non-string template, otherwise every `{identifier}` occurrence replaced
per `formatValueSpec`. -/
def formatMessageSpec (template : JSValue) (context : List (String × JSValue)) : String :=
  match template with
  | .strV s => String.mk (replacePlaceholders (formatValueSpec context) s.toList)
  | _ => ""

/-- The `string | string[]` shape of the `message` criterion. -/
inductive StrOrArray where
  | one : String → StrOrArray
  | many : List String → StrOrArray
deriving DecidableEq

/-- `Array.isArray(m) ? m : [m]`. -/
def StrOrArray.toList : StrOrArray → List String
  | .one s => [s]
  | .many l => l

/-- `ErrorCriteria` from `src/chain-utils.ts`: optional expected code, optional
expected class (a constructor, identified here by its class name and tested
with `instanceof`), optional expected message fragment(s). -/
structure ErrorCriteria where
  code : Option String := none
  type : Option String := none
  message : Option StrOrArray := none
deriving DecidableEq

/-- `ExpectedChainLevel` inherits the `ErrorCriteria` fields unchanged. -/
abbrev ExpectedChainLevel := ErrorCriteria

/-- The node's `code` property as the chain utilities read it. -/
def codeOfNode : JSValue → JSValue
  | .errV _ _ code _ _ _ => code
  | .fabV _ _ code _ _ _ _ _ _ _ _ => .strV code
  | .objV _ _ fields => lookupKey fields "code"
  | _ => .undefV

/-- The node's `message` property. -/
def messageOfNode : JSValue → JSValue
  | .errV _ message _ _ _ _ => message
  | .fabV _ message _ _ _ _ _ _ _ _ _ => .strV message
  | .objV _ _ fields => lookupKey fields "message"
  | _ => .undefV

/-- The node's `cause` property. -/
def causeOfNode : JSValue → JSValue
  | .errV _ _ _ _ _ cause => cause
  | .fabV _ _ _ _ _ _ _ _ _ _ cause => cause
  | .objV _ _ fields => lookupKey fields "cause"
  | _ => .undefV

/-- `v.constructor.name` for the values that can reach it. -/
def ctorNameOf : JSValue → String
  | .errV _ _ _ _ types _ => types.headD "Error"
  | .fabV _ _ _ _ _ _ _ _ _ _ _ => "FabError"
  | .objV _ _ _ => "Object"
  | .strV _ => "String"
  | .numV _ => "Number"
  | .boolV _ => "Boolean"
  | .funcV _ => "Function"
  | _ => "undefined"

/-- JS `s.toLowerCase()` as an ordinal case fold over the character list. -/
def jsToLower (s : String) : String :=
  String.mk (s.toList.map Char.toLower)

/-- The `codeMatch` computation of `hasErrorInChain`'s loop body: vacuously
true when no code is expected, otherwise the node needs a string `code`
property exactly equal (case-sensitively) to the expected one. -/
def codeMatchB (node : JSValue) (crit : Option String) : Bool :=
  match crit with
  | none => true
  | some c =>
      match codeOfNode node with
      | .strV s => s == c
      | _ => false

/-- The `typeMatch` computation: the `instanceof` test when a type is
expected. -/
def typeMatchB (node : JSValue) (crit : Option String) : Bool :=
  match crit with
  | none => true
  | some t => instanceOfClass node t

/-- The `messageMatch` computation: when fragments are expected the node needs
a string `message` whose lowercasing contains every expected fragment's
lowercasing. -/
def messageMatchB (node : JSValue) (crit : Option StrOrArray) : Bool :=
  match crit with
  | none => true
  | some expected =>
      match messageOfNode node with
      | .strV m =>
          expected.toList.all (fun frag => jsIncludes (jsToLower m) (jsToLower frag))
      | _ => false

/-- The per-node test of `hasErrorInChain`'s loop body: the conjunction of the
three computations above; an unsupplied criterion stays vacuously true. -/
def matchesCriteria (node : JSValue) (criteria : ErrorCriteria) : Bool :=
  codeMatchB node criteria.code && typeMatchB node criteria.type &&
    messageMatchB node criteria.message

/-- `hasErrorInChain` from `src/chain-utils.ts`: walk the chain from `error`,
returning `true` at the first node matching all supplied criteria; advance to
`cause` only when `cause instanceof Error`, otherwise the walk (and the
search) ends with `false`.  The declared argument type is
`Error | undefined | null`; `null`/`undefined` (and every other non-`Error`
start, all outside the declared domain) give `false` as the loop never runs. -/
def hasErrorInChain (error : JSValue) (criteria : ErrorCriteria) : Bool :=
  match error with
  | .errV n m c s t cause =>
      if matchesCriteria (.errV n m c s t cause) criteria then true
      else if isErrorInstance cause then hasErrorInChain cause criteria
      else false
  | .fabV a b c d e f g h i j cause =>
      if matchesCriteria (.fabV a b c d e f g h i j cause) criteria then true
      else if isErrorInstance cause then hasErrorInChain cause criteria
      else false
  | _ => false

/-- The mismatch reports `checkErrorChain` can raise, one constructor per
`throw` site of the source: chain ended before an expected level (with the
level index and the expected code, when one was supplied); code mismatch; type
mismatch; message property not a string; a missing message fragment; and
excess chain nodes after all expected levels (with the expected length and the
next node's constructor name, code and message). -/
inductive ChainFailure where
  | chainEnded : Nat → Option String → ChainFailure
  | codeMismatch : Nat → String → JSValue → JSValue → ChainFailure
  | typeMismatch : Nat → String → String → JSValue → ChainFailure
  | messageNotString : Nat → JSValue → ChainFailure
  | messageMismatch : Nat → String → String → ChainFailure
  | excessChain : Nat → String → JSValue → JSValue → ChainFailure

/-- Step 1 of a level check: the expected code, when supplied, must equal the
node's string `code` property. -/
def checkLevelCode (idx : Nat) (node : JSValue) (lvl : ExpectedChainLevel) :
    Option ChainFailure :=
  match lvl.code with
  | none => none
  | some c =>
      match codeOfNode node with
      | .strV s => if s == c then none else some (.codeMismatch idx c (.strV s) (messageOfNode node))
      | other => some (.codeMismatch idx c other (messageOfNode node))

/-- Step 2 of a level check: the expected type, when supplied, must pass the
`instanceof` test. -/
def checkLevelType (idx : Nat) (node : JSValue) (lvl : ExpectedChainLevel) :
    Option ChainFailure :=
  match lvl.type with
  | none => none
  | some t =>
      if instanceOfClass node t then none
      else some (.typeMismatch idx t (ctorNameOf node) (messageOfNode node))

/-- The fragment loop of step 3: report the first expected fragment the
lowercased message does not contain. -/
def checkMsgFrags (idx : Nat) (lowerMsg : String) (frags : List String) :
    Option ChainFailure :=
  match frags with
  | [] => none
  | f :: rest =>
      if jsIncludes lowerMsg (jsToLower f) then checkMsgFrags idx lowerMsg rest
      else some (.messageMismatch idx f lowerMsg)

/-- Step 3 of a level check: when a message criterion is supplied the node's
`message` must be a string containing every expected fragment,
case-insensitively. -/
def checkLevelMessage (idx : Nat) (node : JSValue) (lvl : ExpectedChainLevel) :
    Option ChainFailure :=
  match lvl.message with
  | none => none
  | some expected =>
      match messageOfNode node with
      | .strV m => checkMsgFrags idx (jsToLower m) expected.toList
      | _ => some (.messageNotString idx (codeOfNode node))

/-- One full level check, raising at the first failing step, in source order:
code, then type, then message. -/
def checkLevel (idx : Nat) (node : JSValue) (lvl : ExpectedChainLevel) :
    Option ChainFailure :=
  match checkLevelCode idx node lvl with
  | some f => some f
  | none =>
      match checkLevelType idx node lvl with
      | some f => some f
      | none => checkLevelMessage idx node lvl

/-- The loop of `checkErrorChain`, with the running level index: per expected
level the current chain value must be truthy (an `Error`), must pass the level
check, and the walk advances to `cause` when `cause instanceof Error` and to
`undefined` otherwise; after the last expected level a truthy remaining value
is reported as excess chain length. -/
def checkErrorChainAux (current : JSValue) (levels : List ExpectedChainLevel)
    (idx : Nat) : Except ChainFailure Bool :=
  match levels with
  | [] =>
      if truthy current then
        .error (.excessChain idx (ctorNameOf current) (codeOfNode current) (messageOfNode current))
      else .ok true
  | lvl :: rest =>
      if truthy current then
        match checkLevel idx current lvl with
        | some f => .error f
        | none =>
            checkErrorChainAux
              (if isErrorInstance (causeOfNode current) then causeOfNode current else .undefV)
              rest (idx + 1)
      else .error (.chainEnded idx lvl.code)

/-- `checkErrorChain` from `src/chain-utils.ts`.  The source first raises if
`expectedChain` is not an array; in this embedding the argument is a list by
type, so that guard can never fire and the function is the level loop started
at index 0. -/
def checkErrorChain (error : JSValue) (expectedChain : List ExpectedChainLevel) :
    Except ChainFailure Bool :=
  checkErrorChainAux error expectedChain 0

/-- The sequence of nodes the chain utilities can visit from a start value: an
`Error` value followed by the nodes of its `cause`, the empty sequence on any
non-`Error` value (so a chain always ends at the first non-`Error` cause). -/
def chainNodes : JSValue → List JSValue
  | .errV n m c s t cause => .errV n m c s t cause :: chainNodes cause
  | .fabV a b c d e f g h i j cause => .fabV a b c d e f g h i j cause :: chainNodes cause
  | _ => []

/-- The declared start domain of both chain utilities:
`Error | undefined | null`. -/
def isChainStart (v : JSValue) : Bool :=
  match v with
  | .undefV => true
  | .nullV => true
  | other => isErrorInstance other

/-- The claim-side reading of a successful `checkErrorChain` run: the chain
has exactly one node per expected level and the node at each depth satisfies
every supplied field of the descriptor at that depth. -/
def chainMatchesPositionally (start : JSValue) (levels : List ExpectedChainLevel) : Prop :=
  (chainNodes start).length = levels.length ∧
    ∀ (i : Nat) (h1 : i < (chainNodes start).length) (h2 : i < levels.length),
      matchesCriteria ((chainNodes start).get ⟨i, h1⟩) (levels.get ⟨i, h2⟩) = true

/-- `ErrorSpec` from `src/error-spec.ts`: code, message template (declared as a
string; kept as a value so that a non-string template — tolerated by the
formatter — is representable), optional default context, optional docs link. -/
structure ErrorSpec where
  code : String
  messageTemplate : JSValue
  defaultContext : Option (List (String × JSValue)) := none
  docs : Option String := none

/-- The `FabError` constructor from `src/fab-error.ts`: merge
`spec.defaultContext` under the caller context by object spread, format the
message from the template and the merged context, freeze the merged context
(`Object.freeze` — a shallow freeze of the fresh spread result), copy
`code`/`docs`, keep the spec by reference, and set `cause` only when
`cause instanceof Error`.  The host `Error` base also captures a stack trace
here; its contents are environment data, modelled as absent. -/
def mkFabError (spec : ErrorSpec) (context : List (String × JSValue))
    (cause : JSValue) : JSValue :=
  let fullContext := spreadMerge (spec.defaultContext.getD []) context
  let formattedMessage := formatMessage spec.messageTemplate fullContext
  .fabV "FabError" formattedMessage spec.code (.objV true .std fullContext) spec.docs
    spec.code spec.messageTemplate spec.defaultContext spec.docs .undefV
    (if isErrorInstance cause then cause else .undefV)

/-- The `context` slot of a `FabError` value. -/
def fabContext : JSValue → JSValue
  | .fabV _ _ _ context _ _ _ _ _ _ _ => context
  | _ => .undefV

/-- The `message` slot of a `FabError` value. -/
def fabMessage : JSValue → String
  | .fabV _ message _ _ _ _ _ _ _ _ _ => message
  | _ => ""

/-- The `cause` slot of a `FabError` value. -/
def fabCause : JSValue → JSValue
  | .fabV _ _ _ _ _ _ _ _ _ _ cause => cause
  | _ => .undefV

/-- Whether a value is a `FabError` instance. -/
def isFab : JSValue → Bool
  | .fabV _ _ _ _ _ _ _ _ _ _ _ => true
  | _ => false

/-- `undefined`-defaulting rendering of an optional string property. -/
def optStr : Option String → JSValue
  | some s => .strV s
  | none => .undefV

/-- `FabError.toJSON` from `src/fab-error.ts`.  The `cause` entry is computed
first: nothing when `this.cause` is falsy; the recursive `toJSON` when it is a
`FabError`; `{name, message, stack}` when it is a generic `Error`;
`{...cause}` (a fresh unfrozen shallow copy) when it is a non-`Error` object;
`{value: String(cause)}` for any other (truthy) value.  The result is a plain
object literal with the error's own fields, a `spec` sub-object and the
computed `cause` entry. -/
def toJSON : JSValue → JSValue
  | .fabV name message code context docs specCode specTemplate _specDefault specDocs stack cause =>
      let causeJSON : JSValue :=
        if truthy cause then
          match cause with
          | .fabV a b c d e f g h i j k => toJSON (.fabV a b c d e f g h i j k)
          | .errV n m _ s _ _ =>
              .objV false .std [("name", .strV n), ("message", m), ("stack", s)]
          | .objV _ _ fields => .objV false .std fields
          | other => .objV false .std [("value", .strV (jsString other))]
        else .undefV
      .objV false .std
        [("name", .strV name), ("code", .strV code), ("message", .strV message),
         ("context", context), ("docs", optStr docs), ("stack", stack),
         ("spec", .objV false .std
            [("code", .strV specCode), ("messageTemplate", specTemplate),
             ("docs", optStr specDocs)]),
         ("cause", causeJSON)]
  | _ => .undefV

/-- The `cause` entry of a serialized `FabError` (`undefined` exactly when the
entry is omitted from the JSON output). -/
def causeEntry (e : JSValue) : JSValue :=
  lookupKey (objFields (toJSON e)) "cause"

/-! ### Concrete example chain used by witnesses -/

/-- A three-level example chain, deepest node: a `TypeError` with code `L3`. -/
def exDeep : JSValue :=
  .errV "TypeError" (.strV "Deep failure") (.strV "L3") .undefV ["TypeError", "Error"] .undefV

/-- Middle node with code `L2`, caused by `exDeep`. -/
def exMid : JSValue :=
  .errV "Error" (.strV "Level 2 problem") (.strV "L2") .undefV ["Error"] exDeep

/-- Top node with code `L1`, caused by `exMid`. -/
def exTop : JSValue :=
  .errV "Error" (.strV "Level 1: oops") (.strV "L1") .undefV ["Error"] exMid


/-! ### Helper lemmas about chain traversal -/

theorem chainNodes_eq_nil {v : JSValue} (h : isErrorInstance v = false) :
    chainNodes v = [] := by
  cases v <;> simp_all [isErrorInstance, chainNodes]

theorem isChainStart_of_isError {v : JSValue} (h : isErrorInstance v = true) :
    isChainStart v = true := by
  cases v <;> simp_all [isErrorInstance, isChainStart]

theorem chainNodes_advance (cu : JSValue) :
    chainNodes (if isErrorInstance cu then cu else .undefV) = chainNodes cu := by
  by_cases h : isErrorInstance cu = true
  · simp [h]
  · have h2 : isErrorInstance cu = false := by simpa using h
    rw [if_neg (by simp [h2]), chainNodes_eq_nil h2]
    rfl

theorem isChainStart_advance (cu : JSValue) :
    isChainStart (if isErrorInstance cu then cu else .undefV) = true := by
  by_cases h : isErrorInstance cu = true
  · rw [if_pos h]
    exact isChainStart_of_isError h
  · rw [if_neg (by simp [h])]
    rfl

theorem hasErrorInChain_iff_aux (crit : ErrorCriteria) :
    ∀ (n : Nat) (start : JSValue), (chainNodes start).length ≤ n →
      isChainStart start = true →
      (hasErrorInChain start crit = true ↔
        ∃ node ∈ chainNodes start, matchesCriteria node crit = true) := by
  intro n
  induction n with
  | zero =>
      intro start hlen hstart
      cases start <;> simp_all [isChainStart, isErrorInstance, chainNodes, hasErrorInChain]
  | succ n ih =>
      intro start hlen hstart
      cases start with
      | undefV => simp [hasErrorInChain, chainNodes]
      | nullV => simp [hasErrorInChain, chainNodes]
      | errV nm m cd st ty cause =>
          rw [hasErrorInChain]
          by_cases hm : matchesCriteria (.errV nm m cd st ty cause) crit = true
          · refine ⟨fun _ => ⟨.errV nm m cd st ty cause, by simp [chainNodes], hm⟩,
              fun _ => by simp [hm]⟩
          · simp only [hm]
            rw [if_neg (by simp [hm])]
            by_cases hc : isErrorInstance cause = true
            · rw [if_pos hc]
              have hcs : isChainStart cause = true := isChainStart_of_isError hc
              have hlen2 : (chainNodes cause).length ≤ n := by
                simp [chainNodes] at hlen
                omega
              rw [ih cause hlen2 hcs]
              constructor
              · rintro ⟨node, hmem, hnode⟩
                exact ⟨node, by simp [chainNodes, hmem], hnode⟩
              · rintro ⟨node, hmem, hnode⟩
                rcases (by simpa [chainNodes] using hmem :
                    node = JSValue.errV nm m cd st ty cause ∨ node ∈ chainNodes cause) with h1 | h1
                · exact absurd (h1 ▸ hnode) hm
                · exact ⟨node, h1, hnode⟩
            · rw [if_neg hc]
              have hnil : chainNodes cause = [] := chainNodes_eq_nil (by simpa using hc)
              constructor
              · intro h2; exact absurd h2 (by simp)
              · rintro ⟨node, hmem, hnode⟩
                have h1 : node = JSValue.errV nm m cd st ty cause := by
                  simpa [chainNodes, hnil] using hmem
                exact absurd (h1 ▸ hnode) hm
      | fabV a b c d e f g h i j cause =>
          rw [hasErrorInChain]
          by_cases hm : matchesCriteria (.fabV a b c d e f g h i j cause) crit = true
          · refine ⟨fun _ => ⟨.fabV a b c d e f g h i j cause, by simp [chainNodes], hm⟩,
              fun _ => by simp [hm]⟩
          · simp only [hm]
            rw [if_neg (by simp [hm])]
            by_cases hc : isErrorInstance cause = true
            · rw [if_pos hc]
              have hcs : isChainStart cause = true := isChainStart_of_isError hc
              have hlen2 : (chainNodes cause).length ≤ n := by
                simp [chainNodes] at hlen
                omega
              rw [ih cause hlen2 hcs]
              constructor
              · rintro ⟨node, hmem, hnode⟩
                exact ⟨node, by simp [chainNodes, hmem], hnode⟩
              · rintro ⟨node, hmem, hnode⟩
                rcases (by simpa [chainNodes] using hmem :
                    node = JSValue.fabV a b c d e f g h i j cause ∨ node ∈ chainNodes cause) with h1 | h1
                · exact absurd (h1 ▸ hnode) hm
                · exact ⟨node, h1, hnode⟩
            · rw [if_neg hc]
              have hnil : chainNodes cause = [] := chainNodes_eq_nil (by simpa using hc)
              constructor
              · intro h2; exact absurd h2 (by simp)
              · rintro ⟨node, hmem, hnode⟩
                have h1 : node = JSValue.fabV a b c d e f g h i j cause := by
                  simpa [chainNodes, hnil] using hmem
                exact absurd (h1 ▸ hnode) hm
      | boolV b => simp [isChainStart, isErrorInstance] at hstart
      | numV x => simp [isChainStart, isErrorInstance] at hstart
      | strV s => simp [isChainStart, isErrorInstance] at hstart
      | funcV s => simp [isChainStart, isErrorInstance] at hstart
      | objV fr ts fl => simp [isChainStart, isErrorInstance] at hstart

theorem checkLevelCode_none_iff (idx : Nat) (node : JSValue) (lvl : ExpectedChainLevel) :
    checkLevelCode idx node lvl = none ↔ codeMatchB node lvl.code = true := by
  unfold checkLevelCode codeMatchB
  cases lvl.code with
  | none => simp
  | some c =>
      cases codeOfNode node with
      | strV s =>
          by_cases h : (s == c) = true
          · simp [h]
          · simp [h]
      | undefV => simp
      | nullV => simp
      | boolV b => simp
      | numV x => simp
      | funcV s => simp
      | objV fr ts fl => simp
      | errV a b c2 d e f => simp
      | fabV a b c2 d e f g h i j k => simp

theorem checkLevelType_none_iff (idx : Nat) (node : JSValue) (lvl : ExpectedChainLevel) :
    checkLevelType idx node lvl = none ↔ typeMatchB node lvl.type = true := by
  unfold checkLevelType typeMatchB
  cases lvl.type with
  | none => simp
  | some t =>
      by_cases h : instanceOfClass node t = true
      · simp [h]
      · simp [h]

theorem checkMsgFrags_none_iff (idx : Nat) (lowerMsg : String) (frags : List String) :
    checkMsgFrags idx lowerMsg frags = none ↔
      frags.all (fun f => jsIncludes lowerMsg (jsToLower f)) = true := by
  induction frags with
  | nil => simp [checkMsgFrags]
  | cons f rest ih =>
      by_cases h : jsIncludes lowerMsg (jsToLower f) = true
      · simp [checkMsgFrags, h, ih]
      · simp [checkMsgFrags, h]

theorem checkLevelMessage_none_iff (idx : Nat) (node : JSValue) (lvl : ExpectedChainLevel) :
    checkLevelMessage idx node lvl = none ↔ messageMatchB node lvl.message = true := by
  unfold checkLevelMessage messageMatchB
  cases lvl.message with
  | none => simp
  | some expected =>
      cases messageOfNode node with
      | strV m => simp [checkMsgFrags_none_iff]
      | undefV => simp
      | nullV => simp
      | boolV b => simp
      | numV x => simp
      | funcV s => simp
      | objV fr ts fl => simp
      | errV a b c2 d e f => simp
      | fabV a b c2 d e f g h i j k => simp

theorem checkLevel_none_iff (idx : Nat) (node : JSValue) (lvl : ExpectedChainLevel) :
    checkLevel idx node lvl = none ↔ matchesCriteria node lvl = true := by
  unfold checkLevel matchesCriteria
  cases hc : checkLevelCode idx node lvl with
  | some f =>
      have hcode : codeMatchB node lvl.code = false := by
        rcases Bool.eq_false_or_eq_true (codeMatchB node lvl.code) with h | h
        · exact absurd ((checkLevelCode_none_iff idx node lvl).mpr h) (by simp [hc])
        · exact h
      simp [hcode]
  | none =>
      have hcode : codeMatchB node lvl.code = true := (checkLevelCode_none_iff idx node lvl).mp hc
      cases ht : checkLevelType idx node lvl with
      | some f =>
          have htype : typeMatchB node lvl.type = false := by
            rcases Bool.eq_false_or_eq_true (typeMatchB node lvl.type) with h | h
            · exact absurd ((checkLevelType_none_iff idx node lvl).mpr h) (by simp [ht])
            · exact h
          simp [hcode, htype]
      | none =>
          have htype : typeMatchB node lvl.type = true := (checkLevelType_none_iff idx node lvl).mp ht
          simp [hcode, htype, checkLevelMessage_none_iff]

theorem positional_cons (node : JSValue) (ns : List JSValue) (lvl : ExpectedChainLevel)
    (ls : List ExpectedChainLevel) :
    ((node :: ns).length = (lvl :: ls).length ∧
      ∀ (i : Nat) (h1 : i < (node :: ns).length) (h2 : i < (lvl :: ls).length),
        matchesCriteria ((node :: ns).get ⟨i, h1⟩) ((lvl :: ls).get ⟨i, h2⟩) = true) ↔
      (matchesCriteria node lvl = true ∧ ns.length = ls.length ∧
        ∀ (i : Nat) (h1 : i < ns.length) (h2 : i < ls.length),
          matchesCriteria (ns.get ⟨i, h1⟩) (ls.get ⟨i, h2⟩) = true) := by
  constructor
  · rintro ⟨hlen, hall⟩
    refine ⟨hall 0 (by simp) (by simp), by simpa using hlen, fun i h1 h2 => ?_⟩
    simpa using hall (i + 1) (by simpa using Nat.succ_lt_succ h1)
      (by simpa using Nat.succ_lt_succ h2)
  · rintro ⟨h0, hlen, hall⟩
    refine ⟨by simpa using hlen, fun i h1 h2 => ?_⟩
    match i with
    | 0 => simpa using h0
    | Nat.succ j =>
        have hj1 : j < ns.length := by simpa using h1
        have hj2 : j < ls.length := by simpa using h2
        simpa using hall j hj1 hj2

theorem checkAux_ne_ok_false :
    ∀ (levels : List ExpectedChainLevel) (current : JSValue) (idx : Nat),
      checkErrorChainAux current levels idx ≠ .ok false := by
  intro levels
  induction levels with
  | nil =>
      intro current idx h
      unfold checkErrorChainAux at h
      split at h
      · exact Except.noConfusion h
      · simp at h
  | cons lvl rest ih =>
      intro current idx h
      unfold checkErrorChainAux at h
      split at h
      · split at h
        · exact Except.noConfusion h
        · exact ih _ _ h
      · exact Except.noConfusion h

theorem checkAux_ok_iff :
    ∀ (levels : List ExpectedChainLevel) (current : JSValue) (idx : Nat),
      isChainStart current = true →
      (checkErrorChainAux current levels idx = .ok true ↔
        ((chainNodes current).length = levels.length ∧
          ∀ (i : Nat) (h1 : i < (chainNodes current).length) (h2 : i < levels.length),
            matchesCriteria ((chainNodes current).get ⟨i, h1⟩) (levels.get ⟨i, h2⟩) = true)) := by
  intro levels
  induction levels with
  | nil =>
      intro current idx hstart
      unfold checkErrorChainAux
      by_cases ht : truthy current = true
      · rw [if_pos ht]
        constructor
        · intro h; exact Except.noConfusion h
        · rintro ⟨hlen, -⟩
          exfalso
          cases current with
          | errV a b c d e f => simp [chainNodes] at hlen
          | fabV a b c d e f g h i j k => simp [chainNodes] at hlen
          | undefV => exact absurd ht (by simp [truthy])
          | nullV => exact absurd ht (by simp [truthy])
          | boolV b => exact absurd hstart (by simp [isChainStart, isErrorInstance])
          | numV x => exact absurd hstart (by simp [isChainStart, isErrorInstance])
          | strV s => exact absurd hstart (by simp [isChainStart, isErrorInstance])
          | funcV s => exact absurd hstart (by simp [isChainStart, isErrorInstance])
          | objV fr ts fl => exact absurd hstart (by simp [isChainStart, isErrorInstance])
      · rw [if_neg ht]
        have hnil : chainNodes current = [] := by
          cases current with
          | errV a b c d e f => exact absurd rfl ht
          | fabV a b c d e f g h i j k => exact absurd rfl ht
          | undefV => rfl
          | nullV => rfl
          | boolV b => rfl
          | numV x => rfl
          | strV s => rfl
          | funcV s => rfl
          | objV fr ts fl => rfl
        constructor
        · intro _
          refine ⟨by simp [hnil], fun i h1 h2 => ?_⟩
          exact absurd h2 (by simp)
        · intro _; rfl
  | cons lvl rest ih =>
      intro current idx hstart
      unfold checkErrorChainAux
      by_cases ht : truthy current = true
      · rw [if_pos ht]
        have hchain : chainNodes current = current :: chainNodes (causeOfNode current) := by
          cases current with
          | errV a b c d e f => rfl
          | fabV a b c d e f g h i j k => rfl
          | undefV => exact absurd ht (by simp [truthy])
          | nullV => exact absurd ht (by simp [truthy])
          | boolV b => exact absurd hstart (by simp [isChainStart, isErrorInstance])
          | numV x => exact absurd hstart (by simp [isChainStart, isErrorInstance])
          | strV s => exact absurd hstart (by simp [isChainStart, isErrorInstance])
          | funcV s => exact absurd hstart (by simp [isChainStart, isErrorInstance])
          | objV fr ts fl => exact absurd hstart (by simp [isChainStart, isErrorInstance])
        rw [hchain]
        rw [positional_cons current (chainNodes (causeOfNode current)) lvl rest]
        split
        · rename_i f hcl
          constructor
          · intro h; exact Except.noConfusion h
          · rintro ⟨h0, -, -⟩
            exact absurd ((checkLevel_none_iff idx current lvl).mpr h0) (by simp [hcl])
        · rename_i hcl
          have h0 : matchesCriteria current lvl = true := (checkLevel_none_iff idx current lvl).mp hcl
          rw [ih _ (idx + 1) (isChainStart_advance (causeOfNode current))]
          rw [chainNodes_advance (causeOfNode current)]
          simp [h0]
      · rw [if_neg ht]
        have hnil : chainNodes current = [] := by
          cases current with
          | errV a b c d e f => exact absurd rfl ht
          | fabV a b c d e f g h i j k => exact absurd rfl ht
          | undefV => rfl
          | nullV => rfl
          | boolV b => rfl
          | numV x => rfl
          | strV s => rfl
          | funcV s => rfl
          | objV fr ts fl => rfl
        constructor
        · intro h; exact Except.noConfusion h
        · rintro ⟨hlen, -⟩
          rw [hnil] at hlen
          simp at hlen

example : hasErrorInChain exTop ⟨some "L3", none, none⟩ = true := by rfl
example : hasErrorInChain exTop ⟨some "NOPE", none, none⟩ = false := by rfl
example : hasErrorInChain exTop ⟨none, some "TypeError", none⟩ = true := by rfl
example : hasErrorInChain exTop ⟨none, none, some (.many ["LEVEL 1", "oops"])⟩ = true := by rfl
example :
    checkErrorChain exTop
      [⟨some "L1", none, some (.one "level 1")⟩, ⟨some "L2", none, none⟩,
        ⟨some "L3", some "TypeError", none⟩] = .ok true := by rfl
example :
    checkErrorChain exTop [⟨some "L1", none, none⟩, ⟨some "L2", none, none⟩] =
      .error (.excessChain 2 "TypeError" (.strV "L3") (.strV "Deep failure")) := by rfl
example :
    checkErrorChain .nullV [⟨some "X", none, none⟩] = .error (.chainEnded 0 (some "X")) := by rfl

/-- C1: for every start value in the declared domain (an error, null, or
undefined) and every list of level descriptors, `checkErrorChain` returns
`true` if and only if the chain node at each depth `i` exists and satisfies
every supplied field of descriptor `i` (exact case-sensitive code equality,
dynamic type-membership for `type`, conjunctive case-insensitive substring
containment for `message`) and the chain has no node at depth
`length expectedChain`; in every other case it raises (the result is an
`error`, never a `false`). -/
theorem checkErrorChain_correct (start : JSValue) (levels : List ExpectedChainLevel)
    (h : isChainStart start = true) :
    (checkErrorChain start levels = .ok true ↔ chainMatchesPositionally start levels) ∧
    (checkErrorChain start levels = .ok true ∨
      ∃ f, checkErrorChain start levels = .error f) := by
  constructor
  · unfold chainMatchesPositionally checkErrorChain
    exact checkAux_ok_iff levels start 0 h
  · cases hr : checkErrorChain start levels with
    | ok b =>
        cases b with
        | false => exact absurd hr (checkAux_ne_ok_false levels start 0)
        | true => exact Or.inl rfl
    | error f => exact Or.inr ⟨f, rfl⟩

/-- Witness for C1 at the concrete three-level chain `exTop`: the start is in
the declared domain and a full positional match holds, obtained by running the
theorem on the computed `.ok true` outcome. -/
theorem checkErrorChain_correct_witness :
    isChainStart exTop = true ∧
      chainMatchesPositionally exTop
        [⟨some "L1", none, some (.one "level 1")⟩, ⟨some "L2", none, none⟩,
          ⟨some "L3", some "TypeError", none⟩] :=
  ⟨rfl,
    ((checkErrorChain_correct exTop
      [⟨some "L1", none, some (.one "level 1")⟩, ⟨some "L2", none, none⟩,
        ⟨some "L3", some "TypeError", none⟩] rfl).1).mp rfl⟩

/-- C2: for every start value in the declared domain and every criteria
object, `hasErrorInChain` returns `true` if and only if some node of the chain
starting at `start` (the start node included) satisfies all supplied criteria
conjunctively; it returns `false` when the start is null/undefined, and in
particular when traversal exhausts the chain without a match (the embedding is
a total function, so no run raises). -/
theorem hasErrorInChain_correct (start : JSValue) (crit : ErrorCriteria)
    (h : isChainStart start = true) :
    (hasErrorInChain start crit = true ↔
      ∃ node ∈ chainNodes start, matchesCriteria node crit = true) ∧
    (start = .nullV ∨ start = .undefV → hasErrorInChain start crit = false) := by
  refine ⟨hasErrorInChain_iff_aux crit (chainNodes start).length start le_rfl h, ?_⟩
  rintro (rfl | rfl) <;> rfl

/-- Witness for C2 at the concrete chain `exTop` with criteria `code = "L3"`:
the start is in the declared domain and the matching node exists, obtained by
running the theorem on the computed `true` outcome. -/
theorem hasErrorInChain_correct_witness :
    isChainStart exTop = true ∧
      (∃ node ∈ chainNodes exTop, matchesCriteria node ⟨some "L3", none, none⟩ = true) :=
  ⟨rfl, ((hasErrorInChain_correct exTop ⟨some "L3", none, none⟩ rfl).1).mp rfl⟩

/-- C10: in both chain utilities, traversal advances from a node to its cause
only when the cause is an `Error` instance; any other cause value — including
a plain object carrying `name`/`message` fields — ends the chain at that node:
the cause's content is never examined (replacing it by `undefined` changes
neither function's result) and the node is the last chain node. -/
theorem chain_advance_requires_error (nm : String) (m cd st : JSValue)
    (ty : List String) (cause : JSValue) (crit : ErrorCriteria)
    (levels : List ExpectedChainLevel) (h : isErrorInstance cause = false) :
    hasErrorInChain (.errV nm m cd st ty cause) crit =
      hasErrorInChain (.errV nm m cd st ty .undefV) crit ∧
    checkErrorChain (.errV nm m cd st ty cause) levels =
      checkErrorChain (.errV nm m cd st ty .undefV) levels ∧
    chainNodes (.errV nm m cd st ty cause) = [.errV nm m cd st ty cause] := by
  refine ⟨?_, ?_, ?_⟩
  · have hm : matchesCriteria (.errV nm m cd st ty cause) crit =
        matchesCriteria (.errV nm m cd st ty .undefV) crit := rfl
    rw [hasErrorInChain, hasErrorInChain, hm, h]
    simp [isErrorInstance]
  · cases levels with
    | nil => rfl
    | cons lvl rest =>
        unfold checkErrorChain checkErrorChainAux
        have hcl : checkLevel 0 (JSValue.errV nm m cd st ty cause) lvl =
            checkLevel 0 (JSValue.errV nm m cd st ty .undefV) lvl := rfl
        rw [hcl]
        have hadv :
            (if isErrorInstance (causeOfNode (JSValue.errV nm m cd st ty cause)) then
                causeOfNode (JSValue.errV nm m cd st ty cause)
              else JSValue.undefV) =
            (if isErrorInstance (causeOfNode (JSValue.errV nm m cd st ty JSValue.undefV)) then
                causeOfNode (JSValue.errV nm m cd st ty JSValue.undefV)
              else JSValue.undefV) := by
          have h1 : causeOfNode (JSValue.errV nm m cd st ty cause) = cause := rfl
          rw [h1, h]
          simp [causeOfNode, isErrorInstance]
        rw [hadv]
        rw [show truthy (JSValue.errV nm m cd st ty cause) =
            truthy (JSValue.errV nm m cd st ty JSValue.undefV) from rfl]
  · simp [chainNodes, chainNodes_eq_nil h]

/-- Witness for C10: a node whose cause is a plain object that merely carries
`name` and `message` fields; the object is not an `Error` instance and the
three conclusions hold at this concrete input. -/
theorem chain_advance_requires_error_witness :
    isErrorInstance (.objV false .std [("name", .strV "E"), ("message", .strV "inner")]) = false ∧
      hasErrorInChain
          (.errV "Error" (.strV "boom") (.strV "X") .undefV ["Error"]
            (.objV false .std [("name", .strV "E"), ("message", .strV "inner")]))
          ⟨some "X", none, none⟩ =
        hasErrorInChain (.errV "Error" (.strV "boom") (.strV "X") .undefV ["Error"] .undefV)
          ⟨some "X", none, none⟩ :=
  ⟨rfl,
    (chain_advance_requires_error "Error" (.strV "boom") (.strV "X") .undefV ["Error"]
      (.objV false .std [("name", .strV "E"), ("message", .strV "inner")])
      ⟨some "X", none, none⟩ [] rfl).1⟩

/-- C7: the constructed error's cause slot equals the `cause` argument exactly
when that argument is an `Error` instance; for any other argument (undefined
or a non-error value) the slot is left unset — the constructor never stores a
non-error cause. -/
theorem constructor_cause_guard (spec : ErrorSpec) (ctx : List (String × JSValue))
    (cause : JSValue) :
    (isErrorInstance cause = true → fabCause (mkFabError spec ctx cause) = cause) ∧
    (isErrorInstance cause = false → fabCause (mkFabError spec ctx cause) = .undefV) := by
  constructor <;> intro h <;> simp [mkFabError, fabCause, h]

/-- Witness for C7: an `Error` cause is stored, and a string cause is not. -/
theorem constructor_cause_guard_witness :
    isErrorInstance exDeep = true ∧
      fabCause (mkFabError ⟨"C", .strV "m", none, none⟩ [] exDeep) = exDeep ∧
      isErrorInstance (.strV "not an error") = false ∧
      fabCause (mkFabError ⟨"C", .strV "m", none, none⟩ [] (.strV "not an error")) = .undefV :=
  ⟨rfl, (constructor_cause_guard ⟨"C", .strV "m", none, none⟩ [] exDeep).1 rfl,
    rfl, (constructor_cause_guard ⟨"C", .strV "m", none, none⟩ [] (.strV "not an error")).2 rfl⟩

/-- C8: serialization of an error built from a blueprint and a context with no
predecessor is a pure function of the (blueprint, context) pair — any two such
constructions (whatever non-error value the cause argument had, and in
whatever order they run) produce identical `toJSON` results.  The host's stack
capture is environment data and is modelled as absent. -/
theorem toJSON_deterministic (spec : ErrorSpec) (ctx : List (String × JSValue))
    (u1 u2 : JSValue) (h1 : isErrorInstance u1 = false) (h2 : isErrorInstance u2 = false) :
    toJSON (mkFabError spec ctx u1) = toJSON (mkFabError spec ctx u2) := by
  simp [mkFabError, h1, h2]

/-- Witness for C8 with the two no-predecessor spellings `undefined` and
`null`. -/
theorem toJSON_deterministic_witness :
    isErrorInstance JSValue.undefV = false ∧ isErrorInstance JSValue.nullV = false ∧
      toJSON (mkFabError ⟨"C", .strV "m", none, none⟩ [("a", .numV 1)] .undefV) =
        toJSON (mkFabError ⟨"C", .strV "m", none, none⟩ [("a", .numV 1)] .nullV) :=
  ⟨rfl, rfl, toJSON_deterministic ⟨"C", .strV "m", none, none⟩ [("a", .numV 1)] .undefV .nullV rfl rfl⟩

/-- C9: construction is total in the embedding (it always yields a `FabError`
value; the only caught operation, a custom `toString` during formatting, is
absorbed by the formatter), and a spec whose `messageTemplate` is not a string
produces the empty message rather than an exception. -/
theorem construction_never_raises (spec : ErrorSpec) (ctx : List (String × JSValue))
    (cause : JSValue) :
    isFab (mkFabError spec ctx cause) = true ∧
      ((∀ s, spec.messageTemplate ≠ .strV s) →
        fabMessage (mkFabError spec ctx cause) = "") := by
  refine ⟨by simp [mkFabError, isFab], fun h => ?_⟩
  have hm : fabMessage (mkFabError spec ctx cause) =
      formatMessage spec.messageTemplate (spreadMerge (spec.defaultContext.getD []) ctx) := rfl
  rw [hm]
  cases hs : spec.messageTemplate with
  | strV s => exact absurd hs (h s)
  | undefV => rfl
  | nullV => rfl
  | boolV b => rfl
  | numV x => rfl
  | funcV s => rfl
  | objV fr ts fl => rfl
  | errV a b c d e f => rfl
  | fabV a b c d e f g h2 i j k => rfl

/-- Witness for C9: a numeric (non-string) template yields the empty
message. -/
theorem construction_never_raises_witness :
    fabMessage (mkFabError ⟨"C", .numV 3, none, none⟩ [("a", .numV 1)] .undefV) = "" :=
  (construction_never_raises ⟨"C", .numV 3, none, none⟩ [("a", .numV 1)] .undefV).2
    (fun _ h => JSValue.noConfusion h)

/-- Counterexample to C4 as stated: the context freeze is shallow, not deep.
For an error constructed with a nested object in its context, assigning
through the nested object (`err.context.nested.x = 2`) does change the
observable context. -/
theorem context_freeze_counterexample :
    setPropPath
        (fabContext (mkFabError ⟨"X", .strV "m", none, none⟩
          [("nested", .objV false .std [("x", .numV 1)])] .undefV))
        ["nested", "x"] (.numV 2) ≠
      fabContext (mkFabError ⟨"X", .strV "m", none, none⟩
        [("nested", .objV false .std [("x", .numV 1)])] .undefV) := by
  intro hcontra
  have h1 : setPropPath
      (fabContext (mkFabError ⟨"X", .strV "m", none, none⟩
        [("nested", .objV false .std [("x", .numV 1)])] .undefV))
      ["nested", "x"] (.numV 2) =
      .objV true .std [("nested", .objV false .std [("x", .numV 2)])] := rfl
  have h2 : fabContext (mkFabError ⟨"X", .strV "m", none, none⟩
      [("nested", .objV false .std [("x", .numV 1)])] .undefV) =
      .objV true .std [("nested", .objV false .std [("x", .numV 1)])] := rfl
  rw [h1, h2] at hcontra
  simp at hcontra

/-- C4 as amended: the context is the merge of the spec's `defaultContext` and
the caller context, frozen (shallowly) immediately after computation, so every
later attempt to add, modify, or remove a top-level key of the context is a
no-op; nested objects reachable from the context are not themselves frozen. -/
theorem context_freeze_amended (spec : ErrorSpec) (ctx : List (String × JSValue))
    (cause : JSValue) (k : String) (v : JSValue) :
    setProp (fabContext (mkFabError spec ctx cause)) k v =
        fabContext (mkFabError spec ctx cause) ∧
      deleteProp (fabContext (mkFabError spec ctx cause)) k =
        fabContext (mkFabError spec ctx cause) ∧
      setPropPath (fabContext (mkFabError spec ctx cause)) [k] v =
        fabContext (mkFabError spec ctx cause) := by
  have hc : fabContext (mkFabError spec ctx cause) =
      .objV true .std (spreadMerge (spec.defaultContext.getD []) ctx) := rfl
  rw [hc]
  exact ⟨by simp [setProp], by simp [deleteProp], by simp [setPropPath]⟩


theorem causeEntry_fabV (nm ms cd : String) (ctxv : JSValue) (docs : Option String)
    (sc : String) (st : JSValue) (sd : Option (List (String × JSValue)))
    (sdocs : Option String) (stk cause : JSValue) :
    causeEntry (.fabV nm ms cd ctxv docs sc st sd sdocs stk cause) =
      (if truthy cause then
        match cause with
        | .fabV a b c d e f g h i j k => toJSON (.fabV a b c d e f g h i j k)
        | .errV n m _ s _ _ => .objV false .std [("name", .strV n), ("message", m), ("stack", s)]
        | .objV _ _ fields => .objV false .std fields
        | other => .objV false .std [("value", .strV (jsString other))]
      else .undefV) := by
  cases cause <;> rfl

/-- C3 as amended: `toJSON`'s cause entry follows the ordered policy — a falsy
cause slot (absent, and also any defined falsy value such as `false`, `0` or
the empty string) omits the entry entirely; a `FabError` predecessor is
serialized recursively by its own `toJSON`; a generic `Error` predecessor
becomes exactly `{name, message, stack}` with no recursion; a plain non-error
object becomes a shallow copy of its fields; any other truthy value becomes
`{value: String(cause)}`. -/
theorem toJSON_cause_policy (nm ms cd : String) (ctxv : JSValue) (docs : Option String)
    (sc : String) (st : JSValue) (sd : Option (List (String × JSValue)))
    (sdocs : Option String) (stk cause : JSValue) :
    (truthy cause = false →
      causeEntry (.fabV nm ms cd ctxv docs sc st sd sdocs stk cause) = .undefV) ∧
    (isFab cause = true →
      causeEntry (.fabV nm ms cd ctxv docs sc st sd sdocs stk cause) = toJSON cause) ∧
    (∀ n2 m2 c2 s2 t2 cu2, cause = .errV n2 m2 c2 s2 t2 cu2 →
      causeEntry (.fabV nm ms cd ctxv docs sc st sd sdocs stk cause) =
        .objV false .std [("name", .strV n2), ("message", m2), ("stack", s2)]) ∧
    (∀ fr ts fl, cause = .objV fr ts fl →
      causeEntry (.fabV nm ms cd ctxv docs sc st sd sdocs stk cause) =
        .objV false .std fl) ∧
    (truthy cause = true → isErrorInstance cause = false →
      (∀ fr ts fl, cause ≠ .objV fr ts fl) →
      causeEntry (.fabV nm ms cd ctxv docs sc st sd sdocs stk cause) =
        .objV false .std [("value", .strV (jsString cause))]) := by
  rw [causeEntry_fabV]
  refine ⟨fun h => by simp [h], fun h => ?_, ?_, ?_, ?_⟩
  · cases cause <;> simp_all [isFab, truthy]
  · rintro n2 m2 c2 s2 t2 cu2 rfl
    simp [truthy]
  · rintro fr ts fl rfl
    simp [truthy]
  · intro ht hne hnobj
    cases cause with
    | undefV => simp [truthy] at ht
    | nullV => simp [truthy] at ht
    | errV a b c d e f => simp [isErrorInstance] at hne
    | fabV a b c d e f g h i j k => simp [isErrorInstance] at hne
    | objV fr ts fl => exact absurd rfl (hnobj fr ts fl)
    | boolV b => simp [ht]
    | numV x => simp [truthy] at ht ⊢; simp [ht]
    | strV s => simp [truthy] at ht ⊢; simp [ht]
    | funcV s => simp [ht]

/-- Counterexample to C3 as stated: `false` is a defined non-error
predecessor, so the claim's last case demands `cause = {value: "false"}`, but
the code's truthiness guard omits the cause entry entirely. -/
theorem toJSON_cause_policy_counterexample :
    fabCause (.fabV "FabError" "m" "X" (.objV true .std []) none "X" (.strV "m")
        none none .undefV (.boolV false)) = .boolV false ∧
      (JSValue.boolV false) ≠ .undefV ∧
      causeEntry (.fabV "FabError" "m" "X" (.objV true .std []) none "X" (.strV "m")
        none none .undefV (.boolV false)) = .undefV ∧
      causeEntry (.fabV "FabError" "m" "X" (.objV true .std []) none "X" (.strV "m")
        none none .undefV (.boolV false)) ≠
        .objV false .std [("value", .strV "false")] := by
  refine ⟨rfl, fun h => JSValue.noConfusion h, rfl, fun h => ?_⟩
  rw [show causeEntry (.fabV "FabError" "m" "X" (.objV true .std []) none "X" (.strV "m")
      none none .undefV (.boolV false)) = .undefV from rfl] at h
  exact JSValue.noConfusion h

/-- Witness for the amended C3 at a generic `Error` predecessor: the cause
entry is exactly the predecessor's `{name, message, stack}`. -/
theorem toJSON_cause_policy_witness :
    causeEntry (.fabV "FabError" "msg" "T" (.objV true .std []) none "T" (.strV "msg")
        none none .undefV exDeep) =
      .objV false .std
        [("name", .strV "TypeError"), ("message", .strV "Deep failure"), ("stack", .undefV)] :=
  (toJSON_cause_policy "FabError" "msg" "T" (.objV true .std []) none "T" (.strV "msg")
    none none .undefV exDeep).2.2.1 "TypeError" (.strV "Deep failure") (.strV "L3") .undefV
    ["TypeError", "Error"] .undefV rfl

/-! ### Lookup lemmas for the context merge -/

theorem lookupKey_cons (p : String × JSValue) (rest : List (String × JSValue)) (k : String) :
    lookupKey (p :: rest) k = if p.1 == k then p.2 else lookupKey rest k := by
  by_cases h : (p.1 == k) = true
  · simp [lookupKey, List.find?, h]
  · simp [lookupKey, List.find?, h]

theorem containsKey_cons (p : String × JSValue) (rest : List (String × JSValue)) (k : String) :
    containsKey (p :: rest) k = ((p.1 == k) || containsKey rest k) := by
  simp [containsKey]

theorem containsKey_eq_mem (fields : List (String × JSValue)) (k : String) :
    containsKey fields k = true ↔ k ∈ fields.map Prod.fst := by
  simp [containsKey, List.any_eq_true, beq_iff_eq, List.mem_map]

theorem lookupKey_map_set (fields : List (String × JSValue)) (a : String) (v : JSValue)
    (k : String) :
    lookupKey (fields.map (fun p => if p.1 == a then (a, v) else p)) k =
      if k == a then (if containsKey fields a then v else .undefV)
      else lookupKey fields k := by
  induction fields with
  | nil => by_cases hk : k = a <;> simp [lookupKey, containsKey, hk]
  | cons p rest ih =>
      by_cases hpa : p.1 = a
      · by_cases hk : k = a
        · simp [List.map_cons, lookupKey_cons, containsKey_cons, hpa, hk]
        · have hak : ¬ a = k := fun h => hk h.symm
          have hpk : ¬ p.1 = k := by rw [hpa]; exact hak
          simp only [beq_iff_eq] at ih
          simp [List.map_cons, lookupKey_cons, containsKey_cons, hpa, hk, hak, hpk, ih]
      · by_cases hpk : p.1 = k
        · have hk : ¬ k = a := by rw [← hpk]; exact hpa
          simp [List.map_cons, lookupKey_cons, containsKey_cons, hpa, hpk, hk]
        · simp only [beq_iff_eq] at ih
          simp [List.map_cons, lookupKey_cons, containsKey_cons, hpa, hpk, ih]

theorem lookupKey_setKey (fields : List (String × JSValue)) (a : String) (v : JSValue)
    (k : String) :
    lookupKey (setKey fields a v) k = if k == a then v else lookupKey fields k := by
  unfold setKey
  by_cases hc : containsKey fields a = true
  · rw [if_pos hc, lookupKey_map_set, hc]
    by_cases hk : k = a <;> simp [hk]
  · rw [if_neg hc]
    induction fields with
    | nil =>
        by_cases hk : k = a
        · simp [lookupKey_cons, lookupKey, hk]
        · have hak : ¬ a = k := fun h => hk h.symm
          simp [lookupKey_cons, lookupKey, hk, hak]
    | cons p rest ih =>
        rw [containsKey_cons] at hc
        have hpa : ¬ p.1 = a := by
          intro h
          exact hc (by simp [h])
        have hcr : ¬ containsKey rest a = true := by
          intro h
          exact hc (by simp [h])
        by_cases hpk : p.1 = k
        · have hk : ¬ k = a := by rw [← hpk]; exact hpa
          simp [List.cons_append, lookupKey_cons, hpk, hk]
        · simp [List.cons_append, lookupKey_cons, hpk, ih hcr]

theorem lookupKey_spreadMerge :
    ∀ (C D : List (String × JSValue)) (k : String), (C.map Prod.fst).Nodup →
      lookupKey (spreadMerge D C) k =
        if containsKey C k then lookupKey C k else lookupKey D k := by
  intro C
  induction C with
  | nil =>
      intro D k _
      simp [spreadMerge, containsKey, lookupKey]
  | cons p rest ih =>
      intro D k hnd
      have hnd2 : (rest.map Prod.fst).Nodup := by
        rw [List.map_cons, List.nodup_cons] at hnd
        exact hnd.2
      have hmem : p.1 ∉ rest.map Prod.fst := by
        rw [List.map_cons, List.nodup_cons] at hnd
        exact hnd.1
      have hstep : spreadMerge D (p :: rest) = spreadMerge (setKey D p.1 p.2) rest := rfl
      rw [hstep, ih (setKey D p.1 p.2) k hnd2]
      by_cases hk : containsKey rest k = true
      · have hne : ¬ p.1 = k := by
          intro he
          exact hmem (he ▸ (containsKey_eq_mem rest k).mp hk)
        simp [hk, containsKey_cons, hne, lookupKey_cons]
      · rw [if_neg hk, lookupKey_setKey]
        by_cases hkp : k = p.1
        · subst hkp
          simp [containsKey_cons, lookupKey_cons]
        · have hpk : ¬ p.1 = k := fun h => hkp h.symm
          simp [hkp, containsKey_cons, hpk, hk, lookupKey_cons]

/-- C6: for every spec with default context `D` and caller context `C` (with
distinct keys, as a JS object literal has), the constructed error's context
maps each key to `C`'s value when the key is present in `C` and to `D`'s value
otherwise, and the error's message is the formatter applied to the spec's
template and this merged context. -/
theorem context_merge_correct (spec : ErrorSpec) (ctx : List (String × JSValue))
    (cause : JSValue) (hnd : (ctx.map Prod.fst).Nodup) :
    (∀ k, lookupKey (objFields (fabContext (mkFabError spec ctx cause))) k =
      if containsKey ctx k then lookupKey ctx k
      else lookupKey (spec.defaultContext.getD []) k) ∧
    fabMessage (mkFabError spec ctx cause) =
      formatMessage spec.messageTemplate (spreadMerge (spec.defaultContext.getD []) ctx) := by
  refine ⟨fun k => ?_, rfl⟩
  have h1 : objFields (fabContext (mkFabError spec ctx cause)) =
      spreadMerge (spec.defaultContext.getD []) ctx := rfl
  rw [h1, lookupKey_spreadMerge ctx (spec.defaultContext.getD []) k hnd]

/-- Witness for C6 at the spec's concrete example: default `{a:1, b:2}` merged
with caller `{b:3}` yields a context reading `a = 1` and `b = 3`. -/
theorem context_merge_correct_witness :
    (([("b", JSValue.numV 3)].map Prod.fst).Nodup ∧
      lookupKey (objFields (fabContext (mkFabError
        ⟨"C", .strV "m", some [("a", .numV 1), ("b", .numV 2)], none⟩
        [("b", .numV 3)] .undefV))) "a" = .numV 1) ∧
      lookupKey (objFields (fabContext (mkFabError
        ⟨"C", .strV "m", some [("a", .numV 1), ("b", .numV 2)], none⟩
        [("b", .numV 3)] .undefV))) "b" = .numV 3 := by
  have h := (context_merge_correct
    ⟨"C", .strV "m", some [("a", .numV 1), ("b", .numV 2)], none⟩
    [("b", .numV 3)] .undefV (by simp)).1
  refine ⟨⟨by simp, ?_⟩, ?_⟩
  · rw [h "a"]; rfl
  · rw [h "b"]; rfl

/-- C5: `formatMessage` coincides, on every template and context, with the
reference definition read off the claim: empty string for a non-string
template; placeholders replaced by direct stringification for
string/number/boolean values; left verbatim on a lookup miss or a strictly
null/undefined value; replaced by a custom stringification when an object
overrides the default one, staying verbatim when that invocation throws or
when only the default stringification exists; and left verbatim for values of
any other type. -/
theorem formatMessage_eq_spec (template : JSValue) (context : List (String × JSValue)) :
    formatMessage template context = formatMessageSpec template context := by
  have hval : ∀ key, formatValue context key = formatValueSpec context key := by
    intro key
    unfold formatValue formatValueSpec
    cases lookupKey context key with
    | undefV => rfl
    | nullV => rfl
    | boolV b => rfl
    | numV x => rfl
    | strV s => rfl
    | funcV s => rfl
    | objV fr ts fl => cases ts <;> rfl
    | errV a b c d e f => rfl
    | fabV a b c d e f g h i j k => rfl
  cases template with
  | strV s =>
      unfold formatMessage formatMessageSpec
      rw [funext hval]
  | undefV => rfl
  | nullV => rfl
  | boolV b => rfl
  | numV x => rfl
  | funcV s => rfl
  | objV fr ts fl => rfl
  | errV a b c d e f => rfl
  | fabV a b c d e f g h i j k => rfl
